import Mathlib

/-!
Shallow embedding of `peak_selector.py`, an interactive tool that lets an
operator annotate three landmark points (LEFT, TOP, RIGHT) on each row of a
tabular signal dataset.

Conventions used throughout:
* Python machine floats are modelled as rationals (`ℚ`); a possibly
  non-finite y-value (an IEEE NaN surfaced by the loader) is modelled as
  `Option ℚ`, with `none` standing for a non-finite value.
* The per-row selection dict `{'top': _, 'left': _, 'right': _}` is the
  structure `Ann`.  Because the source aliases the module-level
  `selected_points` dict into entries of `results`, dict objects are
  modelled by an explicit object store (`heap : List Ann`) addressed by
  `Nat` references.
* Fallible Python code (raised exceptions) is modelled with
  `Option` / `Except`: `none` / `.error` marks the control path on which
  the source raises.
-/

namespace PeakSelector

/-- A finite (x, y) coordinate pair; Python floats modelled as rationals. -/
abbrev Point : Type := ℚ × ℚ

/-- The three landmark slots of the per-row selection dict. -/
inductive Slot : Type
  | top
  | left
  | right
  deriving DecidableEq

/-- Contents of one selection dict `{'top': _, 'left': _, 'right': _}`. -/
structure Ann : Type where
  top : Option Point
  left : Option Point
  right : Option Point
  deriving DecidableEq

/-- The all-unset selection dict: every slot is `None`. -/
def annEmpty : Ann := { top := none, left := none, right := none }

/-- Result of one click-confirmation step: either a slot was filled with the
snapped point, or the row was fully reset. -/
inductive ClickOutcome : Type
  | filled (s : Slot) (p : Point)
  | reset
  deriving DecidableEq

/-- Slot-selection logic of `on_click` (peak_selector.py lines 217-233),
expressed on the contents of one row's selection dict: fill the first unset
slot in the order LEFT, TOP, RIGHT with the snapped point; if all three are
already set, replace the dict by a fresh all-unset one and record nothing. -/
def clickStep (a : Ann) (p : Point) : Ann × ClickOutcome :=
  if a.left = none then ({ a with left := some p }, ClickOutcome.filled Slot.left p)
  else if a.top = none then ({ a with top := some p }, ClickOutcome.filled Slot.top p)
  else if a.right = none then ({ a with right := some p }, ClickOutcome.filled Slot.right p)
  else (annEmpty, ClickOutcome.reset)

/-- C1: starting from all three slots unset, successive click confirmations
fill LEFT, TOP, RIGHT in that fixed order, and the fourth confirmation
resets all three slots at once, recording no point. -/
theorem confirm_point_fill_order (p1 p2 p3 p4 : Point) :
    clickStep annEmpty p1 =
      ({ top := none, left := some p1, right := none }, ClickOutcome.filled Slot.left p1) ∧
    clickStep { top := none, left := some p1, right := none } p2 =
      ({ top := some p2, left := some p1, right := none }, ClickOutcome.filled Slot.top p2) ∧
    clickStep { top := some p2, left := some p1, right := none } p3 =
      ({ top := some p2, left := some p1, right := some p3 }, ClickOutcome.filled Slot.right p3) ∧
    clickStep { top := some p2, left := some p1, right := some p3 } p4 =
      (annEmpty, ClickOutcome.reset) :=
  ⟨rfl, rfl, rfl, rfl⟩

/-- C10: the slot a click fills is computed from the actual dict contents,
not a separate counter: the first unset slot in the priority order LEFT,
TOP, RIGHT is filled (so a click made after a manual entry set TOP while
LEFT is still unset fills LEFT), and the reset branch is taken exactly when
all three slots are set. -/
theorem click_slot_from_contents (a : Ann) (p : Point) :
    (a.left = none →
      clickStep a p = ({ a with left := some p }, ClickOutcome.filled Slot.left p)) ∧
    (a.left ≠ none → a.top = none →
      clickStep a p = ({ a with top := some p }, ClickOutcome.filled Slot.top p)) ∧
    (a.left ≠ none → a.top ≠ none → a.right = none →
      clickStep a p = ({ a with right := some p }, ClickOutcome.filled Slot.right p)) ∧
    ((clickStep a p).2 = ClickOutcome.reset ↔
      a.left ≠ none ∧ a.top ≠ none ∧ a.right ≠ none) := by
  rcases hl : a.left with _ | pl <;> rcases ht : a.top with _ | pt <;>
    rcases hr : a.right with _ | pr <;>
      simp [clickStep, hl, ht, hr]

/-- Selection-dict contents with TOP set by a manual entry while LEFT and
RIGHT are still unset. -/
def aTopOnly : Ann := { top := some ((2 : ℚ), (1 : ℚ)), left := none, right := none }

/-- Witness for C10: with TOP already set and LEFT unset, a click fills LEFT
rather than resetting. -/
theorem click_slot_from_contents_witness :
    clickStep aTopOnly ((0 : ℚ), (0 : ℚ)) =
      ({ aTopOnly with left := some ((0 : ℚ), (0 : ℚ)) },
        ClickOutcome.filled Slot.left ((0 : ℚ), (0 : ℚ))) :=
  (click_slot_from_contents aTopOnly ((0 : ℚ), (0 : ℚ))).1 rfl

/-- Total list access with an out-of-range default; models Python sequence
indexing at indices that are in range wherever the source uses it. -/
def nthD {α : Type} : List α → Nat → α → α
  | [], _, d => d
  | a :: _, 0, _ => a
  | _ :: tl, n + 1, d => nthD tl n d

theorem nthD_map_of_lt {α β : Type} (f : α → β) (l : List α) (j : Nat)
    (da : α) (db : β) (h : j < l.length) :
    nthD (l.map f) j db = f (nthD l j da) := by
  induction l generalizing j with
  | nil => simp at h
  | cons a tl ih =>
    cases j with
    | zero => rfl
    | succ k =>
      simp only [List.map_cons, nthD]
      exact ih k (by simpa using Nat.succ_lt_succ_iff.mp h)

theorem nthD_mem_of_lt {α : Type} (l : List α) (j : Nat) (d : α) (h : j < l.length) :
    nthD l j d ∈ l := by
  induction l generalizing j with
  | nil => simp at h
  | cons a tl ih =>
    cases j with
    | zero => simp [nthD]
    | succ k =>
      simp only [nthD]
      exact List.mem_cons_of_mem a (ih k (by simpa using Nat.succ_lt_succ_iff.mp h))

/-- Squared Euclidean distance used by `on_click` (line 208):
`(x - event.xdata)**2 + (y - event.ydata)**2` — no axis normalization. -/
def sqDist (p : Point) (qx qy : ℚ) : ℚ :=
  (p.1 - qx) ^ 2 + (p.2 - qy) ^ 2

/-- Index of the first minimum of a list of rationals; the documented
semantics of `np.argmin` on the distance list (line 209): on ties the
earliest index wins.  (`np.argmin` raises on an empty list; callers guard.) -/
def argminIdx : List ℚ → Nat
  | [] => 0
  | _ :: [] => 0
  | d :: e :: rest =>
      let j := argminIdx (e :: rest)
      if d ≤ nthD (e :: rest) j 0 then 0 else j + 1

theorem argminIdx_lt_length (l : List ℚ) (h : l ≠ []) : argminIdx l < l.length := by
  induction l with
  | nil => exact absurd rfl h
  | cons d tl ih =>
    cases tl with
    | nil => simp [argminIdx]
    | cons e rest =>
      have ih2 := ih (by simp)
      by_cases hc : d ≤ nthD (e :: rest) (argminIdx (e :: rest)) 0
      · simp [argminIdx, hc]
      · simp only [List.length_cons] at ih2
        simp only [argminIdx, hc, if_false, List.length_cons]
        omega

theorem argminIdx_le_nthD (l : List ℚ) :
    ∀ j < l.length, nthD l (argminIdx l) 0 ≤ nthD l j 0 := by
  induction l with
  | nil => intro j hj; simp at hj
  | cons d tl ih =>
    cases tl with
    | nil =>
      intro j hj
      have hj0 : j = 0 := by
        simp only [List.length_cons, List.length_nil] at hj
        omega
      subst hj0
      simp [argminIdx]
    | cons e rest =>
      intro j hj
      by_cases hc : d ≤ nthD (e :: rest) (argminIdx (e :: rest)) 0
      · simp only [argminIdx, hc, if_true]
        cases j with
        | zero => simp [nthD]
        | succ k =>
          simp only [nthD]
          exact le_trans hc (ih k (by simpa using Nat.succ_lt_succ_iff.mp hj))
      · simp only [argminIdx, hc, if_false]
        cases j with
        | zero =>
          simp only [nthD]
          exact le_of_lt (lt_of_not_le hc)
        | succ k =>
          simp only [nthD]
          exact ih k (by simpa using Nat.succ_lt_succ_iff.mp hj)

theorem argminIdx_first (l : List ℚ) :
    ∀ j < argminIdx l, nthD l (argminIdx l) 0 < nthD l j 0 := by
  induction l with
  | nil => intro j hj; simp [argminIdx] at hj
  | cons d tl ih =>
    cases tl with
    | nil => intro j hj; simp [argminIdx] at hj
    | cons e rest =>
      intro j hj
      by_cases hc : d ≤ nthD (e :: rest) (argminIdx (e :: rest)) 0
      · simp [argminIdx, hc] at hj
      · simp only [argminIdx, hc, if_false] at hj ⊢
        cases j with
        | zero =>
          simp only [nthD]
          exact lt_of_not_le hc
        | succ k =>
          simp only [nthD]
          exact ih k (Nat.succ_lt_succ_iff.mp hj)

/-- Snap of `on_click` (lines 202-211): build the list of squared distances
from every sample of the current row to the click location, take
`np.argmin`, and return that sample.  `none` models the `ValueError` that
`np.argmin` raises on an empty row. -/
def snapPoint (samples : List Point) (qx qy : ℚ) : Option Point :=
  if samples.isEmpty then none
  else some (nthD samples (argminIdx (samples.map (fun s => sqDist s qx qy))) ((0 : ℚ), (0 : ℚ)))

/-- C2: for a non-empty row the snap used by click confirmation returns a
sample of the row itself, namely the one minimizing squared Euclidean
distance to the query, and every sample strictly before it in the row's
native order has strictly larger distance (first-wins tie-break). -/
theorem snap_returns_nearest_sample (samples : List Point) (qx qy : ℚ)
    (h : samples ≠ []) :
    snapPoint samples qx qy =
      some (nthD samples (argminIdx (samples.map (fun s => sqDist s qx qy)))
        ((0 : ℚ), (0 : ℚ))) ∧
    nthD samples (argminIdx (samples.map (fun s => sqDist s qx qy)))
      ((0 : ℚ), (0 : ℚ)) ∈ samples ∧
    (∀ j < samples.length,
      sqDist (nthD samples (argminIdx (samples.map (fun s => sqDist s qx qy)))
        ((0 : ℚ), (0 : ℚ))) qx qy ≤
      sqDist (nthD samples j ((0 : ℚ), (0 : ℚ))) qx qy) ∧
    (∀ j < argminIdx (samples.map (fun s => sqDist s qx qy)),
      sqDist (nthD samples j ((0 : ℚ), (0 : ℚ))) qx qy >
      sqDist (nthD samples (argminIdx (samples.map (fun s => sqDist s qx qy)))
        ((0 : ℚ), (0 : ℚ))) qx qy) := by
  have hmapne : samples.map (fun s => sqDist s qx qy) ≠ [] := by
    simpa using h
  have hargmin : argminIdx (samples.map (fun s => sqDist s qx qy)) < samples.length := by
    have := argminIdx_lt_length (samples.map (fun s => sqDist s qx qy)) hmapne
    simpa using this
  refine ⟨?_, ?_, ?_, ?_⟩
  · simp [snapPoint, List.isEmpty_iff, h]
  · exact nthD_mem_of_lt samples _ _ hargmin
  · intro j hj
    have := argminIdx_le_nthD (samples.map (fun s => sqDist s qx qy))
      j (by simpa using hj)
    rwa [nthD_map_of_lt (fun s => sqDist s qx qy) samples _ ((0 : ℚ), (0 : ℚ)) 0 hargmin,
      nthD_map_of_lt (fun s => sqDist s qx qy) samples j ((0 : ℚ), (0 : ℚ)) 0 hj] at this
  · intro j hj
    have hjlen : j < samples.length := lt_trans hj hargmin
    have := argminIdx_first (samples.map (fun s => sqDist s qx qy)) j hj
    rw [nthD_map_of_lt (fun s => sqDist s qx qy) samples _ ((0 : ℚ), (0 : ℚ)) 0 hargmin,
      nthD_map_of_lt (fun s => sqDist s qx qy) samples j ((0 : ℚ), (0 : ℚ)) 0 hjlen] at this
    exact this

/-- Row samples of the specification's concrete snap scenario. -/
def cSamples : List Point := [(0, 0), (1, 5), (2, 1), (3, 4), (4, 0)]

/-- Witness for C2: on the concrete row `[(0,0),(1,5),(2,1),(3,4),(4,0)]`
the click at (1.1, 5.2) snaps to the sample (1, 5). -/
theorem snap_returns_nearest_sample_witness :
    cSamples ≠ [] ∧
    snapPoint cSamples (11 / 10) (26 / 5) =
      some (nthD cSamples (argminIdx (cSamples.map (fun s => sqDist s (11 / 10) (26 / 5))))
        ((0 : ℚ), (0 : ℚ))) ∧
    nthD cSamples (argminIdx (cSamples.map (fun s => sqDist s (11 / 10) (26 / 5))))
      ((0 : ℚ), (0 : ℚ)) = ((1 : ℚ), (5 : ℚ)) :=
  ⟨by simp [cSamples],
   (snap_returns_nearest_sample cSamples (11 / 10) (26 / 5) (by simp [cSamples])).1,
   by norm_num [cSamples, argminIdx, sqDist, nthD]⟩

/-- Console text is modelled as a list of characters (Lean `String`
primitives do not reduce well in the kernel; the list form is equivalent). -/
abbrev PyStr := List Char

/-- Python `str.split(sep)` for a one-character separator: splits at every
occurrence of `sep`; the empty string yields `[""]`. -/
def splitOnChar (sep : Char) : PyStr → List PyStr
  | [] => [[]]
  | c :: rest =>
      let r := splitOnChar sep rest
      if c = sep then [] :: r
      else (c :: r.headD []) :: r.tail

/-- Python `str.strip()` as used on the coordinate fields, restricted to the
space character (the only whitespace a console coordinate entry plausibly
carries; tabs and newlines never reach `input()` results here). -/
def stripChars (s : PyStr) : PyStr :=
  ((s.dropWhile (fun c => c = ' ')).reverse.dropWhile (fun c => c = ' ')).reverse

/-- Numeric value of a decimal digit character, `none` otherwise. -/
def digitVal? (c : Char) : Option Nat :=
  if c.isDigit then some (c.toNat - 48) else none

def digitsValAux : PyStr → Nat → Option Nat
  | [], acc => some acc
  | c :: rest, acc =>
      match digitVal? c with
      | none => none
      | some d => digitsValAux rest (10 * acc + d)

/-- Value of a non-empty string of decimal digits, `none` otherwise. -/
def digitsVal? (s : PyStr) : Option Nat :=
  if s.isEmpty then none else digitsValAux s 0

/-- Magnitude part of Python `float()` restricted to the plain decimal
literals `digits[.digits]` exercised by this program; `none` models the
`ValueError` raised on malformed text.  (Python's `float` also accepts
exponents and named non-finite values, which the console flow here never
relies on.) -/
def pyFloatMag? (s : PyStr) : Option ℚ :=
  match splitOnChar '.' s with
  | [ip] => (digitsVal? ip).map (fun n => (n : ℚ))
  | [ip, fp] =>
      match digitsVal? ip, digitsVal? fp with
      | some n, some f => some ((n : ℚ) + (f : ℚ) / ((10 : ℚ) ^ fp.length))
      | _, _ => none
  | _ => none

/-- Python `float()` on an optionally negated plain decimal literal. -/
def pyFloat? (s : PyStr) : Option ℚ :=
  match s with
  | '-' :: rest => (pyFloatMag? rest).map (fun q => -q)
  | _ => pyFloatMag? s

/-- Parsing of one console coordinate entry (`manual_input`, lines 299-300):
`x_str, y_str = s.split(',')` (exactly two fields, else `ValueError`), then
`float(x_str.strip())` and `float(y_str.strip())`. -/
def parseXY? (s : PyStr) : Option Point :=
  match splitOnChar ',' s with
  | [xs, ys] =>
      match pyFloat? (stripChars xs), pyFloat? (stripChars ys) with
      | some x, some y => some (x, y)
      | _, _ => none
  | _ => none

/-- Global state of the script.  Python dict objects holding selections are
kept in an explicit object store `heap`; `selected_points` is the reference
held by the module-level global of the same name, and `results` maps each
row index to the reference held by `results[i]`.  This explicit indirection
is required because the source assigns the module-level dict itself into
`results` entries (`manual_input`, `clear_selection`), aliasing them. -/
structure PState : Type where
  heap : List Ann
  selected_points : Nat
  results : List Nat
  current_row_index : Nat
  data : List (List Point)
  num_rows : Nat
  data_filepath : String
  peak_candidates : List (Nat × List Point)
  deriving DecidableEq

/-- Read-only view of one row's selections, as the renderer and exporter
see them (`results[i]` dereferenced). -/
def get_row_view (st : PState) (i : Nat) : Ann :=
  nthD st.heap (nthD st.results i 0) annEmpty

/-- Click handler `on_click` (lines 197-241) over the session state: guard
against missing data, snap the click to the nearest sample of the current
row, then fill the first unset slot in the order LEFT, TOP, RIGHT of the
dict referenced by `results[current_row_index]`; if all three are set,
rebind `results[current_row_index]` to a freshly allocated all-unset dict
(recording nothing). -/
def on_click (st : PState) (qx qy : ℚ) : PState :=
  if st.data.isEmpty then st
  else
    match snapPoint (nthD st.data st.current_row_index []) qx qy with
    | none => st
    | some pt =>
      let r := nthD st.results st.current_row_index 0
      let a := nthD st.heap r annEmpty
      if a.left = none then { st with heap := st.heap.set r { a with left := some pt } }
      else if a.top = none then { st with heap := st.heap.set r { a with top := some pt } }
      else if a.right = none then { st with heap := st.heap.set r { a with right := some pt } }
      else { st with heap := st.heap ++ [annEmpty],
                     results := st.results.set st.current_row_index st.heap.length }

/-- `clear_selection` (lines 274-284): rebind the module-level
`selected_points` global to a freshly allocated all-unset dict and assign
that same object into `results[current_row_index]`. -/
def clear_selection (st : PState) : PState :=
  if st.data.isEmpty then st
  else { st with heap := st.heap ++ [annEmpty],
                 selected_points := st.heap.length,
                 results := st.results.set st.current_row_index st.heap.length }

/-- In-place update of one slot of a selection dict
(`selected_points['top'] = (x, y)` and the like). -/
def setSlotA (a : Ann) : Slot → Point → Ann
  | Slot.top, p => { a with top := some p }
  | Slot.left, p => { a with left := some p }
  | Slot.right, p => { a with right := some p }

/-- One field of the `manual_input` batch: a blank entry is skipped
(`if top_str:`); otherwise the entry must parse as `x,y` — on success the
slot of the dict referenced by `b` (the module-level `selected_points`) is
mutated in place, on failure the `ValueError` propagates (`none`). -/
def applyField (h : List Ann) (b : Nat) (s : Slot) (str : PyStr) : Option (List Ann) :=
  if str.isEmpty then some h
  else
    match parseXY? str with
    | none => none
    | some p => some (h.set b (setSlotA (nthD h b annEmpty) s p))

/-- `manual_input` (lines 286-319): inside a single try-block, prompt for
TOP, LEFT, RIGHT in that order, writing each parsed entry into the
module-level `selected_points` dict; the first `ValueError` aborts the rest
of the batch (writes already made to the dict persist), and only if all
three fields succeed is `results[current_row_index] = selected_points`
executed — rebinding the row's entry to the shared dict object itself. -/
def manual_input (st : PState) (topStr leftStr rightStr : PyStr) : PState :=
  if st.data.isEmpty then st
  else
    match applyField st.heap st.selected_points Slot.top topStr with
    | none => st
    | some h1 =>
      match applyField h1 st.selected_points Slot.left leftStr with
      | none => { st with heap := h1 }
      | some h2 =>
        match applyField h2 st.selected_points Slot.right rightStr with
        | none => { st with heap := h2 }
        | some h3 =>
          { st with heap := h3,
                    results := st.results.set st.current_row_index st.selected_points }

/-- Forward navigation (`on_key` 'right', lines 253-256, and
`next_row_button_clicked`, lines 374-380): guarded on data being present;
`current_row_index = (current_row_index + 1) % num_rows`. -/
def nav_next (st : PState) : PState :=
  if st.data.isEmpty then st
  else { st with current_row_index := (st.current_row_index + 1) % st.num_rows }

/-- Backward navigation (`on_key` 'left', lines 257-260, and
`prev_row_button_clicked`, lines 366-372):
`current_row_index = (current_row_index - 1 + num_rows) % num_rows`; over
naturals this is `(current_row_index + num_rows - 1) % num_rows`, the same
value since the index is non-negative and `num_rows ≥ 1` whenever data is
present. -/
def nav_prev (st : PState) : PState :=
  if st.data.isEmpty then st
  else { st with current_row_index := (st.current_row_index + st.num_rows - 1) % st.num_rows }

/-- The heap after `selected_points['top'] = p` has been executed. -/
def bufTopWrite (st : PState) (p : Point) : List Ann :=
  st.heap.set st.selected_points (setSlotA (nthD st.heap st.selected_points annEmpty) Slot.top p)

theorem applyField_eq_none_iff (h : List Ann) (b : Nat) (s : Slot) (str : PyStr) :
    applyField h b s str = none ↔ (str.isEmpty = false ∧ parseXY? str = none) := by
  unfold applyField
  by_cases he : str.isEmpty
  · simp [he]
  · cases hp : parseXY? str <;> simp [he, hp]

/-- Session with one loaded row whose single sample is (1, 5); the module
dict (object 0) and the row dict (object 1) are distinct, as after startup. -/
def stOneRow : PState :=
  { heap := [annEmpty, annEmpty], selected_points := 0, results := [1],
    current_row_index := 0, data := [[(1, 5)]], num_rows := 1,
    data_filepath := "data.csv", peak_candidates := [] }

/-- Session with two loaded rows; objects 1 and 2 are the rows' dicts. -/
def stTwoRows : PState :=
  { heap := [annEmpty, annEmpty, annEmpty], selected_points := 0, results := [1, 2],
    current_row_index := 0, data := [[(0, 0)], [(0, 0)]], num_rows := 2,
    data_filepath := "data.csv", peak_candidates := [] }

/-- Console entry "bad" (malformed coordinate text). -/
def sBad : PyStr := ['b', 'a', 'd']

/-- Console entry "1,2". -/
def sOneTwo : PyStr := ['1', ',', '2']

/-- Console entry "3,4". -/
def sThreeFour : PyStr := ['3', ',', '4']

/-- Console entry "x" (malformed coordinate text). -/
def sX : PyStr := ['x']

/-- Console entry "2,1". -/
def sTwoOne : PyStr := ['2', ',', '1']

/-- Console entry "9,9". -/
def sNineNine : PyStr := ['9', ',', '9']

/-- C3 counterexample: in a single manual batch with a malformed TOP entry
and a well-formed LEFT entry, the LEFT entry is NOT applied — the whole
batch aborts and the row is unchanged, refuting per-slot independence. -/
theorem manual_batch_not_independent_cex :
    manual_input stOneRow sBad sOneTwo sThreeFour = stOneRow ∧
    (get_row_view (manual_input stOneRow sBad sOneTwo sThreeFour) 0).left ≠
      some ((1 : ℚ), (2 : ℚ)) := by
  constructor
  · rfl
  · decide

/-- C3 (amended): the manual batch validates its fields sequentially in the
order TOP, LEFT, RIGHT inside one try-block, aborting at the first
malformed entry: if TOP is malformed the state is unchanged entirely; if
any provided field is malformed the commit of the shared buffer into
`results` is skipped (the row keeps its annotation reference) and only
fields parsed before the failure have been written into the buffer (shown
for a malformed LEFT after a parsed TOP). -/
theorem manual_input_batch_aborts (st : PState) (t l r : PyStr) (p : Point) :
    (t.isEmpty = false → parseXY? t = none → manual_input st t l r = st) ∧
    (((t.isEmpty = false ∧ parseXY? t = none) ∨ (l.isEmpty = false ∧ parseXY? l = none) ∨
        (r.isEmpty = false ∧ parseXY? r = none)) →
      (manual_input st t l r).results = st.results ∧
      (manual_input st t l r).selected_points = st.selected_points ∧
      (manual_input st t l r).current_row_index = st.current_row_index ∧
      (manual_input st t l r).data = st.data) ∧
    (st.data.isEmpty = false → t.isEmpty = false → parseXY? t = some p →
      l.isEmpty = false → parseXY? l = none →
      manual_input st t l r = { st with heap := bufTopWrite st p }) := by
  refine ⟨?_, ?_, ?_⟩
  · intro hne hparse
    have ht : applyField st.heap st.selected_points Slot.top t = none :=
      (applyField_eq_none_iff _ _ _ _).mpr ⟨hne, hparse⟩
    unfold manual_input
    rw [ht]
    simp
  · intro hbad
    unfold manual_input
    by_cases hd : st.data.isEmpty
    · simp [hd]
    · simp only [hd, Bool.false_eq_true, if_false]
      cases ht : applyField st.heap st.selected_points Slot.top t with
      | none => simp [ht]
      | some h1 =>
        cases hl : applyField h1 st.selected_points Slot.left l with
        | none => simp [ht, hl]
        | some h2 =>
          cases hr : applyField h2 st.selected_points Slot.right r with
          | none => simp [ht, hl, hr]
          | some h3 =>
            exfalso
            rcases hbad with hb | hb | hb
            · rw [(applyField_eq_none_iff st.heap st.selected_points Slot.top t).mpr hb] at ht
              exact Option.noConfusion ht
            · rw [(applyField_eq_none_iff h1 st.selected_points Slot.left l).mpr hb] at hl
              exact Option.noConfusion hl
            · rw [(applyField_eq_none_iff h2 st.selected_points Slot.right r).mpr hb] at hr
              exact Option.noConfusion hr
  · intro hd hne hp hlne hlparse
    have ht : applyField st.heap st.selected_points Slot.top t = some (bufTopWrite st p) := by
      unfold applyField bufTopWrite
      simp [hne, hp]
    have hl : applyField (bufTopWrite st p) st.selected_points Slot.left l = none :=
      (applyField_eq_none_iff _ _ _ _).mpr ⟨hlne, hlparse⟩
    unfold manual_input
    rw [ht]
    simp [hl, hd]

/-- Witness for the amended C3: the batch TOP = "x", LEFT = "1,2",
RIGHT blank leaves the one-row session completely unchanged. -/
theorem manual_input_batch_aborts_witness :
    (sX.isEmpty = false ∧ parseXY? sX = none) ∧
    manual_input stOneRow sX sOneTwo [] = stOneRow :=
  ⟨⟨rfl, rfl⟩,
    (manual_input_batch_aborts stOneRow sX sOneTwo [] ((0 : ℚ), (0 : ℚ))).1
      rfl rfl⟩

/-- C4: in the source, a manual entry does not leave the rest of the row
alone.  Clicking row 0 (sole sample (1, 5)) fills LEFT = (1, 5); a
following manual batch that sets only TOP = (2, 1) rebinds the row to the
shared `selected_points` buffer, silently discarding LEFT.  Moreover the
buffer is shared across rows: after a manual batch on row 0, a later manual
batch on row 1 (TOP = (9, 9)) also rewrites row 0's view. -/
theorem manual_entry_clobbers_row :
    (get_row_view (on_click stOneRow 9 9) 0).left = some ((1 : ℚ), (5 : ℚ)) ∧
    (get_row_view (manual_input (on_click stOneRow 9 9) sTwoOne [] []) 0).top =
      some ((2 : ℚ), (1 : ℚ)) ∧
    (get_row_view (manual_input (on_click stOneRow 9 9) sTwoOne [] []) 0).left = none ∧
    (get_row_view (manual_input stTwoRows sTwoOne [] []) 0).top =
      some ((2 : ℚ), (1 : ℚ)) ∧
    (get_row_view (manual_input (nav_next (manual_input stTwoRows sTwoOne [] []))
        sNineNine [] []) 0).top = some ((9 : ℚ), (9 : ℚ)) ∧
    (get_row_view (manual_input (nav_next (manual_input stTwoRows sTwoOne [] []))
        sNineNine [] []) 0).top ≠ some ((2 : ℚ), (1 : ℚ)) := by
  refine ⟨?_, ?_, ?_, ?_, ?_, ?_⟩ <;> decide

theorem mod_next_prev (i n : Nat) (h : i < n) : ((i + 1) % n + n - 1) % n = i := by
  rcases Nat.lt_or_ge (i + 1) n with h1 | h1
  · rw [Nat.mod_eq_of_lt h1]
    have h2 : i + 1 + n - 1 = i + n := by omega
    rw [h2, Nat.add_mod_right, Nat.mod_eq_of_lt (by omega)]
  · have hin : i + 1 = n := by omega
    rw [hin, Nat.mod_self]
    have h2 : 0 + n - 1 = i := by omega
    rw [h2, Nat.mod_eq_of_lt (by omega)]

theorem mod_prev_next (i n : Nat) (h : i < n) : ((i + n - 1) % n + 1) % n = i := by
  rcases Nat.eq_zero_or_pos i with hi | hi
  · subst hi
    have h1 : 0 + n - 1 = n - 1 := by omega
    have h3 : (n - 1) % n = n - 1 := Nat.mod_eq_of_lt (by omega)
    have h2 : n - 1 + 1 = n := by omega
    rw [h1, h3, h2, Nat.mod_self]
  · have h1 : i + n - 1 = (i - 1) + n := by omega
    have h3 : (i - 1) % n = i - 1 := Nat.mod_eq_of_lt (by omega)
    have h2 : i - 1 + 1 = i := by omega
    rw [h1, Nat.add_mod_right, h3, h2, Nat.mod_eq_of_lt h]

/-- C8: with data loaded and `num_rows` in sync with the table (as the
source maintains), forward navigation yields `(i + 1) % n`, backward yields
`(i - 1 + n) % n`, each round trip returns to the original index, and
navigation leaves every annotation object and reference untouched; with no
data both navigations are no-ops. -/
theorem navigate_roundtrip (st : PState) (_hsync : st.num_rows = st.data.length) :
    (st.data = [] → nav_next st = st ∧ nav_prev st = st) ∧
    (st.data ≠ [] → st.current_row_index < st.num_rows →
      (nav_next st).current_row_index = (st.current_row_index + 1) % st.num_rows ∧
      (nav_prev st).current_row_index =
        (st.current_row_index + st.num_rows - 1) % st.num_rows ∧
      (nav_prev (nav_next st)).current_row_index = st.current_row_index ∧
      (nav_next (nav_prev st)).current_row_index = st.current_row_index ∧
      (nav_next st).heap = st.heap ∧ (nav_next st).results = st.results ∧
      (nav_prev st).heap = st.heap ∧ (nav_prev st).results = st.results) := by
  constructor
  · intro hE
    simp [nav_next, nav_prev, hE]
  · intro hne hidx
    have hEf : st.data.isEmpty = false := by
      cases hD : st.data with
      | nil => exact absurd hD hne
      | cons a tl => rfl
    refine ⟨?_, ?_, ?_, ?_, ?_, ?_, ?_, ?_⟩ <;>
      simp [nav_next, nav_prev, hEf, mod_next_prev _ _ hidx, mod_prev_next _ _ hidx]

/-- Session with no data loaded (row count zero). -/
def stEmpty : PState :=
  { heap := [annEmpty], selected_points := 0, results := [],
    current_row_index := 0, data := [], num_rows := 0,
    data_filepath := "", peak_candidates := [] }

/-- Witness for C8: on the two-row session, forward then backward returns
to row 0 without touching results; on the empty session navigation is a
no-op. -/
theorem navigate_roundtrip_witness :
    (nav_next stTwoRows).current_row_index = (0 + 1) % 2 ∧
    (nav_prev (nav_next stTwoRows)).current_row_index = 0 ∧
    (nav_next stTwoRows).results = stTwoRows.results ∧
    nav_next stEmpty = stEmpty := by
  have h := (navigate_roundtrip stTwoRows rfl).2 (by decide) (by decide)
  have hE := (navigate_roundtrip stEmpty rfl).1 rfl
  exact ⟨h.1, h.2.2.1, h.2.2.2.2.2.1, hE.1⟩

/-- References of the freshly allocated selection dicts created by
`results = \x7bi: ... for i in range(num_rows)\x7d`: `n` consecutive
objects starting at `base`. -/
def freshRefs (base : Nat) : Nat → List Nat
  | 0 => []
  | m + 1 => base :: freshRefs (base + 1) m

theorem freshRefs_nthD (n : Nat) :
    ∀ (base i d : Nat), i < n → nthD (freshRefs base n) i d = base + i := by
  induction n with
  | zero => intro base i d h; omega
  | succ m ih =>
    intro base i d h
    cases i with
    | zero => simp [freshRefs, nthD]
    | succ k =>
      have := ih (base + 1) k d (by omega)
      simp only [freshRefs, nthD]
      rw [this]
      omega

theorem nthD_append_right {α : Type} (l1 l2 : List α) (i : Nat) (d : α) :
    nthD (l1 ++ l2) (l1.length + i) d = nthD l2 i d := by
  induction l1 with
  | nil => simp only [List.nil_append, List.length_nil, Nat.zero_add]
  | cons a tl ih =>
    simp only [List.cons_append, List.length_cons]
    have h : tl.length + 1 + i = (tl.length + i) + 1 := by omega
    rw [h]
    simpa only [nthD] using ih

theorem nthD_replicate {α : Type} (n : Nat) (a : α) :
    ∀ i, nthD (List.replicate n a) i a = a := by
  induction n with
  | zero => intro i; rfl
  | succ m ih =>
    intro i
    cases i with
    | zero => rfl
    | succ k =>
      simp only [List.replicate_succ, nthD]
      exact ih k

/-- `change_data_file` (lines 390-434): the file-dialog result is modelled
by `selectedFile` (`none` = user cancelled) and the `load_data` outcome by
`loaded` (`none` = load error).  A cancelled dialog, a failed load, or an
empty table leaves the whole previous state in place; a successful
non-empty load replaces the table and filepath, sets `num_rows`, resets
`current_row_index` to 0, allocates a fresh all-unset selection dict for
every new row, and clears `peak_candidates` in full. -/
def change_data_file (st : PState) (selectedFile : Option String)
    (loaded : Option (List (List Point))) : PState :=
  match selectedFile with
  | none => st
  | some f =>
    match loaded with
    | none => st
    | some rows =>
      if rows.isEmpty then st
      else
        { heap := st.heap ++ List.replicate rows.length annEmpty,
          selected_points := st.selected_points,
          results := freshRefs st.heap.length rows.length,
          current_row_index := 0,
          data := rows,
          num_rows := rows.length,
          data_filepath := f,
          peak_candidates := [] }

/-- C7: a successful non-empty load clears the candidate cache in full,
resets the current row to 0, installs the new table, and makes every new
row's view all-unset; a cancelled dialog, failed load, or empty load leaves
the previous state entirely unchanged. -/
theorem change_data_file_spec (st : PState) (f : String) (rows : List (List Point))
    (lr : Option (List (List Point))) (hne : rows ≠ []) :
    (change_data_file st (some f) (some rows)).peak_candidates = [] ∧
    (change_data_file st (some f) (some rows)).current_row_index = 0 ∧
    (change_data_file st (some f) (some rows)).data = rows ∧
    (change_data_file st (some f) (some rows)).num_rows = rows.length ∧
    (∀ i < rows.length, get_row_view (change_data_file st (some f) (some rows)) i = annEmpty) ∧
    change_data_file st none lr = st ∧
    change_data_file st (some f) none = st ∧
    change_data_file st (some f) (some []) = st := by
  have hEf : rows.isEmpty = false := by
    cases hD : rows with
    | nil => exact absurd hD hne
    | cons a tl => rfl
  refine ⟨?_, ?_, ?_, ?_, ?_, rfl, rfl, rfl⟩
  · simp [change_data_file, hEf]
  · simp [change_data_file, hEf]
  · simp [change_data_file, hEf]
  · simp [change_data_file, hEf]
  · intro i hi
    unfold get_row_view change_data_file
    simp only [hEf, Bool.false_eq_true, if_false]
    rw [freshRefs_nthD rows.length st.heap.length i 0 hi,
      nthD_append_right st.heap (List.replicate rows.length annEmpty) i annEmpty,
      nthD_replicate rows.length annEmpty i]

/-- Path of the replacement table in the C7 witness. -/
def newCsv : String := "new.csv"

/-- Replacement table of the C7 witness: one row, one sample. -/
def rowsW : List (List Point) := [[(0, 0)]]

/-- Witness for C7: replacing the one-row session's table by `rowsW`
clears the cache, resets the row index, and yields an all-unset view for
row 0; a failed load changes nothing. -/
theorem change_data_file_spec_witness :
    rowsW ≠ [] ∧
    (change_data_file stOneRow (some newCsv) (some rowsW)).peak_candidates = [] ∧
    (change_data_file stOneRow (some newCsv) (some rowsW)).current_row_index = 0 ∧
    get_row_view (change_data_file stOneRow (some newCsv) (some rowsW)) 0 = annEmpty ∧
    change_data_file stOneRow (some newCsv) none = stOneRow := by
  have h := change_data_file_spec stOneRow newCsv rowsW none (by decide)
  exact ⟨by decide, h.1, h.2.1, h.2.2.2.2.1 0 (by decide), h.2.2.2.2.2.2.1⟩

/-- A y-value as surfaced by the loader: `none` models a non-finite (NaN)
cell, `some q` a finite value. -/
abbrev YVal := Option ℚ

/-- One sample of a row whose y-value may be non-finite. -/
abbrev SampleN := ℚ × YVal

/-- Membership test `current_row_index in peak_candidates` together with
the dict read, over the cache as an association list. -/
def lookupCache (c : List (Nat × List SampleN)) (i : Nat) : Option (List SampleN) :=
  match c with
  | [] => none
  | (k, v) :: rest => if k = i then some v else lookupCache rest i

/-- The substitution of `find_potential_peaks` (lines 103-108):
`y_data_np[nan_mask] = 0` — every non-finite y-value replaced by 0, finite
values kept. -/
def substituteNonFinite (y : List YVal) : List YVal :=
  y.map (fun v => some (v.getD 0))

/-- `find_potential_peaks` (lines 100-112): replaces non-finite values by 0
(printing a warning) and only then calls the external `find_peaks`.  NOTE:
no caller in the source ever invokes this function; `update_plot` calls
`find_peaks` directly (see `getCandidates`). -/
def find_potential_peaks (finder : List YVal → List Nat) (y : List YVal) : List Nat :=
  finder (substituteNonFinite y)

/-- Candidate computation and cache of `update_plot` (lines 139-148): on a
cache miss (`current_row_index not in peak_candidates`) the external
`find_peaks` is called directly on the row's raw y-values (`y_data`,
non-finite values included, line 141), the returned indices are mapped back
to `(x_data[p], y_data[p])` pairs (an out-of-range index raises: `none`),
and the list is stored under the row index; on a hit the stored list is
returned unchanged and the finder is not consulted.  The `Bool` result
records whether the finder was invoked on this call. -/
def getCandidates (finder : List YVal → List Nat) (samples : List SampleN)
    (cache : List (Nat × List SampleN)) (i : Nat) :
    Option (List SampleN × List (Nat × List SampleN) × Bool) :=
  match lookupCache cache i with
  | some cs => some (cs, cache, false)
  | none =>
    match (finder (samples.map Prod.snd)).mapM (fun p => samples[p]?) with
    | none => none
    | some cs => some (cs, (i, cs) :: cache, true)

/-- C6: on a cache miss, the candidate computation invokes the finder on
the row's y-values, maps the returned indices back to sample pairs, and
stores the resulting list under the row's index; afterwards any request for
the same row — with ANY finder — returns the identical stored list, leaves
the cache unchanged, and does not invoke the finder. -/
theorem getCandidates_memoizes (finder g : List YVal → List Nat)
    (samples : List SampleN) (cache : List (Nat × List SampleN)) (i : Nat)
    (cs : List SampleN)
    (hmiss : lookupCache cache i = none)
    (hcs : (finder (samples.map Prod.snd)).mapM (fun p => samples[p]?) = some cs) :
    getCandidates finder samples cache i = some (cs, (i, cs) :: cache, true) ∧
    getCandidates g samples ((i, cs) :: cache) i = some (cs, (i, cs) :: cache, false) := by
  constructor
  · unfold getCandidates
    rw [hmiss, hcs]
  · unfold getCandidates
    simp [lookupCache]

/-- Finder stub of the C6 witness: flags index 0 as a peak. -/
def finderW : List YVal → List Nat := fun _ => [0]

/-- Second finder stub of the C6 witness: would return the out-of-range
index 42, so it visibly cannot have been consulted on the cached call. -/
def finderW2 : List YVal → List Nat := fun _ => [42]

/-- Row of the C6 witness: a single finite sample (1, 5). -/
def samplesW : List SampleN := [(1, some 5)]

/-- Witness for C6: the first request computes and stores the candidate
(1, 5); the request repeated on the filled cache returns the same list
without invoking the (here deliberately ill-behaved) finder. -/
theorem getCandidates_memoizes_witness :
    getCandidates finderW samplesW [] 0 =
      some ([((1 : ℚ), some (5 : ℚ))], [(0, [((1 : ℚ), some (5 : ℚ))])], true) ∧
    getCandidates finderW2 samplesW [(0, [((1 : ℚ), some (5 : ℚ))])] 0 =
      some ([((1 : ℚ), some (5 : ℚ))], [(0, [((1 : ℚ), some (5 : ℚ))])], false) :=
  getCandidates_memoizes finderW finderW2 samplesW [] 0 [((1 : ℚ), some (5 : ℚ))] rfl rfl

/-- Finder stub that detects whether a non-finite value reached it: it
reports a peak at index 0 exactly when its input is NaN-free. -/
def nanFinder : List YVal → List Nat :=
  fun l => if l.contains none then [] else [0]

/-- C5: `update_plot` passes non-finite y-values to the peak-finder AS-IS.
On the row with the single sample (0, NaN), the candidate computation used
by `update_plot` hands the finder the raw list containing the NaN (the
NaN-sensitive finder sees it and reports no peak), whereas the
NaN-substituting path `find_potential_peaks` — which the claim describes
but which no caller invokes — would have passed [0] and obtained a peak. -/
theorem update_plot_passes_nonfinite_to_finder :
    getCandidates nanFinder [((0 : ℚ), (none : YVal))] [] 0 =
      some ([], [(0, [])], true) ∧
    substituteNonFinite [(none : YVal)] = [some 0] ∧
    find_potential_peaks nanFinder [(none : YVal)] = [0] ∧
    nanFinder [(none : YVal)] = [] := by
  refine ⟨rfl, rfl, rfl, rfl⟩

/-- Message of the exception raised by `save_all_plots`. -/
def unboundLocalMsg : String := "UnboundLocalError"

/-- `save_all_plots` (lines 483-519).  The source assigns
`current_row_index` inside the body (in the loop and in the finally-clause)
without declaring it `global`, so Python scopes that name as a local
variable throughout the body; the very first statement
`current_idx = current_row_index` reads this local before any assignment
and raises `UnboundLocalError`.  `localCurrentRow` models that local slot,
unbound (`none`) at entry; the rest of the body is kept for reference but
is unreachable.  On the unreachable path the loop would collect the row
indices handed to the exporter in order, and only the local variable would
be restored at the end. -/
def save_all_plots (st : PState) : Except String (PState × List Nat) :=
  let localCurrentRow : Option Nat := none
  match localCurrentRow with
  | none => Except.error unboundLocalMsg
  | some _currentIdx =>
      if st.data_filepath = "" then Except.ok (st, [])
      else if st.data.isEmpty then Except.ok (st, [])
      else Except.ok (st, List.range st.num_rows)

/-- C9: the "save all plots" command never exports anything: for every
session state, `save_all_plots` raises `UnboundLocalError` on its first
statement (the read of `current_row_index`, which the body later assigns
without a `global` declaration), so no row is exported and no state is
touched. -/
theorem save_all_plots_raises_unbound_local (st : PState) :
    save_all_plots st = Except.error unboundLocalMsg := rfl

end PeakSelector
